import Mathlib

/-
Verification of the double-stub impedance-matching engine
(`double_stub.py`): the duplicate-solution filter, the multi-start
root-collection scan of `find_first_stub_solutions` /
`find_second_stub_solutions`, the pairing logic of `calculate`, the
constructor validation of `DoubleStubMatcher.__init__`, and the
transmission-line transform `transform_admittance` together with the
`cot` helper.

Modelling conventions.
Numbers handled only by comparisons, subtraction and absolute value
(collected roots, tolerances, initial guesses) are modelled as rationals,
which float values are; quantities fed through transcendental functions
(`cos`, `sin`) are modelled as real and complex numbers.  A numpy float
division whose denominator is zero does not raise: it produces `inf` or
`nan` with a warning.  Such a non-finite outcome is modelled by the
`nonfinite` constructor of `NpVal`; every comparison `nan < p`, `inf < p`
of a non-finite square against a tolerance is `False` in numpy, which
`NpVal.sqLt` reproduces.  `scipy.optimize.fsolve` is external code: one
call on one initial guess is modelled as an oracle function from the
guess to an optional `FsolveResult` (root `x[0]`, residual `fvec[0]`,
status flag `ier`); `none` models the call raising, which the source
catches with a blanket `except` and skips.
-/

/-- A numpy scalar that is either a finite value or non-finite
(`inf`/`-inf`/`nan`, the possible results of dividing by zero). -/
inductive NpVal (α : Type) where
  | finite (val : α) : NpVal α
  | nonfinite : NpVal α
deriving DecidableEq

/-- The numpy comparison `v**2 < p`: `False` whenever `v` is non-finite
(`nan**2 < p` and `inf**2 < p` are both false), otherwise the exact
comparison of the square. -/
def NpVal.sqLt : NpVal ℚ → ℚ → Bool
  | NpVal.finite v, p => decide (v ^ 2 < p)
  | NpVal.nonfinite, _ => false

/-- One `scipy.optimize.fsolve(..., full_output=True)` outcome as the
source reads it: `root` is `result[0][0]`, `fvec` is
`result[1]["fvec"][0]` (possibly non-finite), `ier` is the convergence
status flag `result[2]` (`1` means converged). -/
structure FsolveResult where
  root : ℚ
  fvec : NpVal ℚ
  ier : ℤ
deriving DecidableEq

/-- The body of the loop in `remove_duplicate_solutions`: keep the
accumulated `unique` list unchanged when `sol` is within `tolerance` of
some already-kept solution, otherwise append `sol`. -/
def remove_duplicate_step {α : Type} [LinearOrderedField α]
    (tolerance : α) (unique : List α) (sol : α) : List α :=
  if unique.any (fun u => decide (|sol - u| < tolerance)) then unique
  else unique ++ [sol]

/-- `remove_duplicate_solutions(solutions, tolerance)` from
`double_stub.py`: fold the duplicate-dropping loop body over the input,
starting from an empty `unique_solutions` list.  (The early return on an
empty input coincides with the fold on an empty list.) -/
def remove_duplicate_solutions {α : Type} [LinearOrderedField α]
    (solutions : List α) (tolerance : α) : List α :=
  solutions.foldl (remove_duplicate_step tolerance) []

/-- The acceptance test on line 292 / 336 of `double_stub.py`:
`info["fvec"][0]**2 < self.precision and 0 < solution < max_length`.
The convergence flag `ier` is not read. -/
def acceptSolution (precision maxLength : ℚ) (res : FsolveResult) : Bool :=
  NpVal.sqLt res.fvec precision && decide (0 < res.root)
    && decide (res.root < maxLength)

/-- One iteration of the multi-start loop at a given initial guess:
run the root finder (`none` models a raised exception, skipped by the
blanket `except`), keep the root when the acceptance test passes. -/
def scanAttempt (finder : ℚ → Option FsolveResult)
    (precision maxLength : ℚ) (guess : ℚ) : Option ℚ :=
  match finder guess with
  | none => none
  | some res =>
      if acceptSolution precision maxLength res then some res.root else none

/-- The multi-start collection loop shared by
`find_first_stub_solutions` and `find_second_stub_solutions`:
for `i in range(1, num_trials)` the initial guess is
`(max_length / num_trials) * i`; accepted roots are appended in
discovery order. -/
def multiStartScan (finder : ℚ → Option FsolveResult)
    (precision : ℚ) (numTrials : ℕ) (maxLength : ℚ) : List ℚ :=
  (List.range' 1 (numTrials - 1)).filterMap
    (fun (i : ℕ) => scanAttempt finder precision maxLength
      (maxLength / (numTrials : ℚ) * (i : ℚ)))

/-- `DoubleStubMatcher.find_first_stub_solutions`: the multi-start scan
with `objective_first_stub`, followed by duplicate removal at tolerance
`self.precision`.  The composite of `fsolve` with the objective is the
oracle `finder`. -/
def find_first_stub_solutions (finder : ℚ → Option FsolveResult)
    (precision : ℚ) (numTrials : ℕ) (maxLength : ℚ) : List ℚ :=
  remove_duplicate_solutions
    (multiStartScan finder precision numTrials maxLength) precision

/-- `DoubleStubMatcher.find_second_stub_solutions`: for each first-stub
length `l1` the multi-start scan is rerun against
`objective_second_stub(x, l1)` (oracle `finder2 l1`); all accepted
roots from all `l1` are appended into one `solutions` list, and
duplicate removal runs once on that pooled list. -/
def find_second_stub_solutions (finder2 : ℚ → ℚ → Option FsolveResult)
    (precision : ℚ) (first_stub_lengths : List ℚ)
    (numTrials : ℕ) (maxLength : ℚ) : List ℚ :=
  remove_duplicate_solutions
    (first_stub_lengths.flatMap
      (fun l1 => multiStartScan (finder2 l1) precision numTrials maxLength))
    precision

/-- A per-first-stub-root variant of stage-2 collection, written after
the specification text "dedupe per-root-set as above": each `l1`'s scan
result is deduplicated separately and the deduplicated sets are
concatenated.  This is NOT the source's code; it exists to be compared
with `find_second_stub_solutions`. -/
def find_second_stub_solutions_spec_perRoot
    (finder2 : ℚ → ℚ → Option FsolveResult) (precision : ℚ)
    (first_stub_lengths : List ℚ) (numTrials : ℕ) (maxLength : ℚ) : List ℚ :=
  first_stub_lengths.flatMap
    (fun l1 => remove_duplicate_solutions
      (multiStartScan (finder2 l1) precision numTrials maxLength) precision)

/-- `DoubleStubMatcher.calculate`: stage-1 roots with the default
`num_trials=500`, `max_length=0.5`; empty stage-1 result returns `[]`;
otherwise stage-2 roots, empty result returns `[]`; otherwise the i-th
stage-1 root is paired with the i-th stage-2 root up to the shorter
list (the Python loop over `range(min_pairs)`, i.e. `List.zip`). -/
def calculate (finder1 : ℚ → Option FsolveResult)
    (finder2 : ℚ → ℚ → Option FsolveResult) (precision : ℚ) : List (ℚ × ℚ) :=
  let first := find_first_stub_solutions finder1 precision 500 (1/2)
  if first = [] then []
  else
    let second := find_second_stub_solutions finder2 precision first 500 (1/2)
    if second = [] then []
    else first.zip second

/-- The `DoubleStubMatcher` instance state after a successful
`__init__`: constructor arguments stored as fields (`stub_type`
lower-cased) together with the derived admittances. -/
structure DoubleStubMatcher where
  l : ℝ
  d : ℝ
  Z_load : ℂ
  Z0 : ℝ
  Z0_stub : ℝ
  stub_type : String
  precision : ℝ
  Y0 : ℝ
  Y0_stub : ℝ
  Y_load : ℂ

/-- How `DoubleStubMatcher.__init__` can fail: a Python
`ZeroDivisionError` from one of the reciprocal computations
`1.0 / Z0`, `1.0 / Z0_stub`, `1.0 / Z_load`, or the `ValueError`
raised with the message about the stub type having to be short or open
when the lower-cased stub type is neither. -/
inductive InitError where
  | zeroDivisionError : InitError
  | valueErrorStubType : InitError
deriving DecidableEq

/-- Python `str.lower()` as used on the stub-type argument:
lower-case the string character by character. -/
def strLower (s : String) : String := String.mk (s.data.map Char.toLower)

/-- `DoubleStubMatcher.__init__`: stores the fields, computes
`Y0 = 1/Z0`, `Y0_stub = 1/Z0_stub`, `Y_load = 1/Z_load` (each raising
`ZeroDivisionError` when the divisor is exactly zero, in that order),
and only then validates that the lower-cased stub type is one of
`short`, `open`.  No other validation is performed. -/
noncomputable def DoubleStubMatcher.init
    (distance_to_first_stub distance_between_stubs : ℝ)
    (load_impedance : ℂ) (line_impedance stub_impedance : ℝ)
    (stub_type : String) (precision : ℝ) :
    Except InitError DoubleStubMatcher :=
  if line_impedance = 0 then Except.error InitError.zeroDivisionError
  else if stub_impedance = 0 then Except.error InitError.zeroDivisionError
  else if load_impedance = 0 then Except.error InitError.zeroDivisionError
  else if strLower stub_type = "short" ∨ strLower stub_type = "open" then
    Except.ok
      { l := distance_to_first_stub
        d := distance_between_stubs
        Z_load := load_impedance
        Z0 := line_impedance
        Z0_stub := stub_impedance
        stub_type := strLower stub_type
        precision := precision
        Y0 := 1 / line_impedance
        Y0_stub := 1 / stub_impedance
        Y_load := 1 / load_impedance }
  else Except.error InitError.valueErrorStubType

/-- `cot(x) = np.cos(x) / np.sin(x)` from `double_stub.py`: when the
sine vanishes the numpy float division yields a non-finite value
(with a runtime warning, not an exception). -/
noncomputable def cot (x : ℝ) : NpVal ℝ :=
  if Real.sin x = 0 then NpVal.nonfinite
  else NpVal.finite (Real.cos x / Real.sin x)

/-- `DoubleStubMatcher.transform_admittance(admittance, distance)`:
with `beta_l = 2 pi distance` and `y = admittance / Y0`, returns
`Y0 * (y cos(beta_l) + i sin(beta_l)) / (cos(beta_l) + i sin(beta_l) y)`;
when the denominator vanishes the numpy complex division yields a
non-finite value (with a runtime warning, not an exception). -/
noncomputable def DoubleStubMatcher.transform_admittance
    (self : DoubleStubMatcher) (admittance : ℂ) (distance : ℝ) : NpVal ℂ :=
  let beta_l : ℝ := 2 * Real.pi * distance
  let y_normalized : ℂ := admittance / (self.Y0 : ℂ)
  let numerator : ℂ :=
    y_normalized * (Real.cos beta_l : ℂ) + Complex.I * (Real.sin beta_l : ℂ)
  let denominator : ℂ :=
    (Real.cos beta_l : ℂ) + Complex.I * (Real.sin beta_l : ℂ) * y_normalized
  if denominator = 0 then NpVal.nonfinite
  else NpVal.finite ((self.Y0 : ℂ) * numerator / denominator)

/-- `DoubleStubMatcher.stub_admittance(length)`: a short-circuited stub
contributes `-i Y0_stub cot(2 pi length)` (non-finite when the
cotangent is singular); an open-circuited stub contributes
`i Y0_stub tan(2 pi length)`. -/
noncomputable def DoubleStubMatcher.stub_admittance
    (self : DoubleStubMatcher) (length : ℝ) : NpVal ℂ :=
  let beta_l : ℝ := 2 * Real.pi * length
  if self.stub_type = "short" then
    match cot beta_l with
    | NpVal.finite c => NpVal.finite (-Complex.I * (self.Y0_stub : ℂ) * (c : ℂ))
    | NpVal.nonfinite => NpVal.nonfinite
  else NpVal.finite (Complex.I * (self.Y0_stub : ℂ) * (Real.tan beta_l : ℂ))

/-- The loop body of `remove_duplicate_solutions` either keeps the
accumulator unchanged or appends the inspected solution at the end. -/
theorem remove_duplicate_step_cases {α : Type} [LinearOrderedField α]
    (t : α) (acc : List α) (sol : α) :
    remove_duplicate_step t acc sol = acc ∨
      remove_duplicate_step t acc sol = acc ++ [sol] := by
  unfold remove_duplicate_step
  split
  · exact Or.inl rfl
  · exact Or.inr rfl

/-- Folding the duplicate-dropping loop extends the accumulator by a
subsequence of the inspected list. -/
theorem foldl_remove_duplicate_sublist {α : Type} [LinearOrderedField α]
    (t : α) : ∀ (l acc : List α), ∃ l2, l2.Sublist l ∧
      List.foldl (remove_duplicate_step t) acc l = acc ++ l2
  | [], _ => ⟨[], List.Sublist.refl _, by simp⟩
  | a :: l, acc => by
    rcases remove_duplicate_step_cases t acc a with h | h
    · obtain ⟨l2, hsub, heq⟩ :=
        foldl_remove_duplicate_sublist t l (remove_duplicate_step t acc a)
      exact ⟨l2, hsub.cons a, by rw [List.foldl_cons, heq, h]⟩
    · obtain ⟨l2, hsub, heq⟩ :=
        foldl_remove_duplicate_sublist t l (remove_duplicate_step t acc a)
      refine ⟨a :: l2, hsub.cons₂ a, ?_⟩
      rw [List.foldl_cons, heq, h, List.append_assoc, List.singleton_append]

/-- Folding the duplicate-dropping loop preserves pairwise separation
by at least the tolerance. -/
theorem foldl_remove_duplicate_pairwise {α : Type} [LinearOrderedField α]
    (t : α) : ∀ (l acc : List α),
      acc.Pairwise (fun a b => t ≤ |a - b|) →
      (List.foldl (remove_duplicate_step t) acc l).Pairwise
        (fun a b => t ≤ |a - b|)
  | [], _, h => h
  | a :: l, acc, h => by
    rw [List.foldl_cons]
    apply foldl_remove_duplicate_pairwise t l
    unfold remove_duplicate_step
    split
    · exact h
    · rename_i hany
      rw [List.pairwise_append]
      refine ⟨h, List.pairwise_singleton _ _, ?_⟩
      intro x hx y hy
      rw [List.mem_singleton] at hy
      subst hy
      rw [List.any_eq_true] at hany
      push_neg at hany
      have hxa : ¬(|y - x| < t) :=
        fun hl => hany x hx (decide_eq_true hl)
      rw [abs_sub_comm]
      exact not_lt.mp hxa

/-- Folding the duplicate-dropping loop over a nonempty accumulator
never changes the head of the accumulator. -/
theorem foldl_remove_duplicate_head {α : Type} [LinearOrderedField α]
    (t : α) : ∀ (l acc : List α), acc ≠ [] →
      (List.foldl (remove_duplicate_step t) acc l).head? = acc.head?
  | [], _, _ => rfl
  | a :: l, acc, h => by
    rcases remove_duplicate_step_cases t acc a with hs | hs
    · rw [List.foldl_cons, hs, foldl_remove_duplicate_head t l acc h]
    · rw [List.foldl_cons, hs,
        foldl_remove_duplicate_head t l (acc ++ [a]) (by simp)]
      cases acc with
      | nil => exact absurd rfl h
      | cons x xs => simp

/-- When every inspected solution is within tolerance of some element
of the accumulator, the duplicate-dropping loop changes nothing. -/
theorem foldl_remove_duplicate_absorb {α : Type} [LinearOrderedField α]
    (t : α) : ∀ (l acc : List α),
      (∀ sol ∈ l, ∃ u ∈ acc, |sol - u| < t) →
      List.foldl (remove_duplicate_step t) acc l = acc
  | [], _, _ => rfl
  | a :: l, acc, h => by
    have hstep : remove_duplicate_step t acc a = acc := by
      have hany : acc.any (fun u => decide (|a - u| < t)) = true := by
        rw [List.any_eq_true]
        obtain ⟨u, hu, hlt⟩ := h a (List.mem_cons_self a l)
        exact ⟨u, hu, decide_eq_true hlt⟩
      unfold remove_duplicate_step
      rw [if_pos hany]
    rw [List.foldl_cons, hstep]
    exact foldl_remove_duplicate_absorb t l acc
      (fun sol hs => h sol (List.mem_cons_of_mem a hs))

/-- When every inspected solution is at least the tolerance away from
each accumulator element and pairwise from the other inspected ones,
the duplicate-dropping loop keeps the whole list. -/
theorem foldl_remove_duplicate_keep {α : Type} [LinearOrderedField α]
    (t : α) : ∀ (l acc : List α),
      (∀ sol ∈ l, ∀ u ∈ acc, ¬(|sol - u| < t)) →
      l.Pairwise (fun a b => ¬(|b - a| < t)) →
      List.foldl (remove_duplicate_step t) acc l = acc ++ l
  | [], _, _, _ => by simp
  | a :: l, acc, hfar, hpw => by
    have hstep : remove_duplicate_step t acc a = acc ++ [a] := by
      have hany : ¬(acc.any (fun u => decide (|a - u| < t)) = true) := by
        rw [List.any_eq_true]
        rintro ⟨u, hu, hdec⟩
        exact hfar a (List.mem_cons_self a l) u hu (of_decide_eq_true hdec)
      unfold remove_duplicate_step
      rw [if_neg hany]
    have hfar2 : ∀ sol ∈ l, ∀ u ∈ acc ++ [a], ¬(|sol - u| < t) := by
      intro sol hs u hu
      rcases List.mem_append.mp hu with h1 | h1
      · exact hfar sol (List.mem_cons_of_mem a hs) u h1
      · rw [List.mem_singleton] at h1
        subst h1
        exact (List.pairwise_cons.mp hpw).1 sol hs
    rw [List.foldl_cons, hstep,
      foldl_remove_duplicate_keep t l (acc ++ [a]) hfar2
        (List.pairwise_cons.mp hpw).2,
      List.append_assoc, List.singleton_append]

/-- Membership in the output of `remove_duplicate_solutions` implies
membership in its input. -/
theorem remove_duplicate_solutions_subset {α : Type} [LinearOrderedField α]
    {l : List α} {t x : α}
    (hx : x ∈ remove_duplicate_solutions l t) : x ∈ l := by
  obtain ⟨l2, hsub, heq⟩ := foldl_remove_duplicate_sublist t l []
  unfold remove_duplicate_solutions at hx
  rw [heq, List.nil_append] at hx
  exact hsub.subset hx

/-- The output of `remove_duplicate_solutions` is pairwise separated by
at least the tolerance. -/
theorem remove_duplicate_solutions_pairwise {α : Type}
    [LinearOrderedField α] (l : List α) (t : α) :
    (remove_duplicate_solutions l t).Pairwise (fun a b => t ≤ |a - b|) :=
  foldl_remove_duplicate_pairwise t l [] List.Pairwise.nil

/-- A nonempty list all of whose elements equal `r` deduplicates to
`[r]` at any positive tolerance. -/
theorem remove_duplicate_const {l : List ℚ} {r t : ℚ} (ht : 0 < t)
    (hl : ∀ x ∈ l, x = r) (hne : l ≠ []) :
    remove_duplicate_solutions l t = [r] := by
  cases l with
  | nil => exact absurd rfl hne
  | cons a rest =>
    have ha : a = r := hl a (List.mem_cons_self a rest)
    subst ha
    unfold remove_duplicate_solutions
    have hstep : remove_duplicate_step t [] a = [a] := by
      unfold remove_duplicate_step
      simp
    rw [List.foldl_cons, hstep, foldl_remove_duplicate_absorb t rest [a] ?_]
    intro sol hs
    refine ⟨a, List.mem_singleton_self a, ?_⟩
    rw [hl sol (List.mem_cons_of_mem a hs)]
    simpa using ht

/-- The acceptance test unpacked: true exactly when the squared
residual comparison holds and the root is strictly inside the
interval. -/
theorem acceptSolution_eq_true {precision maxLength : ℚ}
    {res : FsolveResult} :
    acceptSolution precision maxLength res = true ↔
    NpVal.sqLt res.fvec precision = true ∧ 0 < res.root ∧
      res.root < maxLength := by
  unfold acceptSolution
  simp [Bool.and_eq_true, decide_eq_true_eq, and_assoc]

/-- One multi-start attempt produces a root exactly when the finder
returned a result that passes the acceptance test with that root. -/
theorem scanAttempt_eq_some {finder : ℚ → Option FsolveResult}
    {precision maxLength guess r : ℚ} :
    scanAttempt finder precision maxLength guess = some r ↔
    ∃ res, finder guess = some res ∧
      acceptSolution precision maxLength res = true ∧ res.root = r := by
  unfold scanAttempt
  cases h : finder guess with
  | none => simp
  | some res =>
    by_cases hacc : acceptSolution precision maxLength res = true
    · simp [hacc]
    · simp [hacc]

/-- Membership in the raw multi-start scan output, unpacked into the
initial guess that produced it and the accepted finder result. -/
theorem mem_multiStartScan {finder : ℚ → Option FsolveResult}
    {precision : ℚ} {numTrials : ℕ} {maxLength r : ℚ} :
    r ∈ multiStartScan finder precision numTrials maxLength ↔
    ∃ i ∈ List.range' 1 (numTrials - 1), ∃ res : FsolveResult,
      finder (maxLength / (numTrials : ℚ) * (i : ℚ)) = some res ∧
      acceptSolution precision maxLength res = true ∧ res.root = r := by
  unfold multiStartScan
  rw [List.mem_filterMap]
  constructor
  · rintro ⟨i, hi, hs⟩
    exact ⟨i, hi, scanAttempt_eq_some.mp hs⟩
  · rintro ⟨i, hi, hs⟩
    exact ⟨i, hi, scanAttempt_eq_some.mpr hs⟩

/-- A function returning `none` everywhere filters to the empty
list. -/
theorem filterMap_eq_nil_of_none {β γ : Type} {f : β → Option γ}
    (hf : ∀ a, f a = none) : ∀ l : List β, l.filterMap f = []
  | [] => rfl
  | a :: l => by
    rw [List.filterMap_cons, hf a, filterMap_eq_nil_of_none hf l]

/-- A function returning the same `some` everywhere filters to a
replicated list. -/
theorem filterMap_eq_replicate_of_some {β γ : Type} {f : β → Option γ}
    {b : γ} (hf : ∀ a, f a = some b) :
    ∀ l : List β, l.filterMap f = List.replicate l.length b
  | [] => rfl
  | a :: l => by
    rw [List.filterMap_cons, hf a, filterMap_eq_replicate_of_some hf l,
      List.length_cons, List.replicate_succ]

/-- A finder whose every call raises is a scan with no accepted
roots. -/
theorem multiStartScan_none_of (finder : ℚ → Option FsolveResult)
    (precision : ℚ) (numTrials : ℕ) (maxLength : ℚ)
    (hf : ∀ g, finder g = none) :
    multiStartScan finder precision numTrials maxLength = [] := by
  unfold multiStartScan
  refine filterMap_eq_nil_of_none (fun i => ?_) _
  unfold scanAttempt
  rw [hf]

/-- A finder returning one fixed accepted result at every guess yields
a scan consisting of that root once per initial guess. -/
theorem multiStartScan_const_of (finder : ℚ → Option FsolveResult)
    (res : FsolveResult) (precision : ℚ) (numTrials : ℕ) (maxLength : ℚ)
    (hf : ∀ g, finder g = some res)
    (hacc : acceptSolution precision maxLength res = true) :
    multiStartScan finder precision numTrials maxLength =
      List.replicate (numTrials - 1) res.root := by
  unfold multiStartScan
  rw [filterMap_eq_replicate_of_some (fun i => ?_) _, List.length_range']
  unfold scanAttempt
  rw [hf]
  simp [hacc]

/-- Indexing a zip below the length of both lists pairs the two
indexed elements. -/
theorem getElem?_zip_eq {β : Type} (d1 d2 : β) :
    ∀ (l1 l2 : List β) (i : ℕ), i < (l1.zip l2).length →
      (l1.zip l2)[i]? = some (l1.getD i d1, l2.getD i d2)
  | [], _, i, h => absurd h (by simp)
  | _ :: _, [], i, h => absurd h (by simp)
  | a :: l1, b :: l2, 0, _ => by simp
  | a :: l1, b :: l2, i + 1, h => by
    have := getElem?_zip_eq d1 d2 l1 l2 i (by simpa using h)
    simpa using this

/-- C9: for every tolerance `t > 0` and every input list, the output of
`remove_duplicate_solutions` is a subsequence of the input (preserving
first-occurrence order), its elements are pairwise at least `t` apart,
and for a nonempty input the first input element is retained as the
head of the output. -/
theorem c9_theorem {α : Type} [LinearOrderedField α] (t : α) (l : List α)
    (ht : 0 < t) :
    (remove_duplicate_solutions l t).Sublist l ∧
    (remove_duplicate_solutions l t).Pairwise (fun a b => t ≤ |a - b|) ∧
    (l ≠ [] → (remove_duplicate_solutions l t).head? = l.head?) := by
  refine ⟨?_, ?_, ?_⟩
  · obtain ⟨l2, hsub, heq⟩ := foldl_remove_duplicate_sublist t l []
    unfold remove_duplicate_solutions
    rw [heq]
    simpa using hsub
  · exact foldl_remove_duplicate_pairwise t l [] List.Pairwise.nil
  · intro hne
    cases l with
    | nil => exact absurd rfl hne
    | cons a rest =>
      unfold remove_duplicate_solutions
      have hstep : remove_duplicate_step t [] a = [a] := by
        unfold remove_duplicate_step
        simp
      rw [List.foldl_cons, hstep,
        foldl_remove_duplicate_head t rest [a] (by simp)]
      rfl

/-- C5: for every tolerance `t > 0`, a nonempty list of roots all
pairwise within `t / 2` of each other collapses to exactly one retained
value, while a list of roots pairwise spaced at least `2 t` apart is
returned with every root kept. -/
theorem c5_theorem {α : Type} [LinearOrderedField α] (t : α)
    (xs ys : List α) (ht : 0 < t) :
    (xs ≠ [] → (∀ a ∈ xs, ∀ b ∈ xs, |a - b| ≤ t / 2) →
      (remove_duplicate_solutions xs t).length = 1) ∧
    (ys.Pairwise (fun a b => 2 * t ≤ |a - b|) →
      remove_duplicate_solutions ys t = ys) := by
  constructor
  · intro hne hcl
    cases xs with
    | nil => exact absurd rfl hne
    | cons a rest =>
      unfold remove_duplicate_solutions
      have hstep : remove_duplicate_step t [] a = [a] := by
        unfold remove_duplicate_step
        simp
      have habs : ∀ sol ∈ rest, ∃ u ∈ [a], |sol - u| < t := by
        intro sol hs
        refine ⟨a, List.mem_singleton_self a, ?_⟩
        have h1 : |sol - a| ≤ t / 2 :=
          hcl sol (List.mem_cons_of_mem a hs) a (List.mem_cons_self a rest)
        exact lt_of_le_of_lt h1 (half_lt_self ht)
      rw [List.foldl_cons, hstep, foldl_remove_duplicate_absorb t rest [a] habs]
      rfl
  · intro hpw
    unfold remove_duplicate_solutions
    rw [foldl_remove_duplicate_keep t ys [] (by simp) ?_, List.nil_append]
    refine hpw.imp ?_
    intro a b hab
    rw [not_lt, abs_sub_comm]
    calc t ≤ 2 * t := by linarith
    _ ≤ |a - b| := hab

/-- Witness for C5 at tolerance `1`: the clustered list
`[0, 1/4, 1/2]` collapses to a single value and the spread list
`[0, 2, 4]` is kept whole. -/
theorem c5_witness :
    (remove_duplicate_solutions [(0 : ℚ), 1/4, 1/2] 1).length = 1 ∧
    remove_duplicate_solutions [(0 : ℚ), 2, 4] 1 = [0, 2, 4] := by
  have h := c5_theorem (1 : ℚ) [0, 1/4, 1/2] [0, 2, 4] (by norm_num)
  refine ⟨h.1 (by simp) ?_, h.2 ?_⟩
  · intro a ha b hb
    fin_cases ha <;> fin_cases hb <;>
      rw [abs_le] <;> constructor <;> norm_num
  · refine List.Pairwise.cons ?_ (List.Pairwise.cons ?_
      (List.pairwise_singleton _ _))
    · intro b hb
      fin_cases hb <;> rw [le_abs] <;> right <;> norm_num
    · intro b hb
      fin_cases hb <;> rw [le_abs] <;> right <;> norm_num

/-- A root finder oracle that converges to `1/4` with zero residual
and status flag `1` at every initial guess. -/
def goodFinder1 : ℚ → Option FsolveResult :=
  fun _ => some ⟨1/4, NpVal.finite 0, 1⟩

/-- A stage-2 root finder oracle that converges to `3/8` with zero
residual and status flag `1` at every first-stub length and guess. -/
def goodFinder2 : ℚ → ℚ → Option FsolveResult :=
  fun _ _ => some ⟨3/8, NpVal.finite 0, 1⟩

/-- A root finder oracle whose every call raises, exercising the
blanket except path of the scan loop. -/
def noneFinder1 : ℚ → Option FsolveResult := fun _ => none

/-- A stage-2 root finder oracle whose every call raises. -/
def noneFinder2 : ℚ → ℚ → Option FsolveResult := fun _ _ => none

/-- The result root `1/4` with zero residual passes the acceptance
test at precision `1/100` and maximum length `1/2`. -/
theorem accepted_quarter :
    acceptSolution (1/100) (1/2)
      (⟨1/4, NpVal.finite 0, 1⟩ : FsolveResult) = true := by
  rw [acceptSolution_eq_true]
  refine ⟨?_, by norm_num, by norm_num⟩
  simp only [NpVal.sqLt, decide_eq_true_eq]
  norm_num

/-- The result root `3/8` with zero residual passes the acceptance
test at precision `1/100` and maximum length `1/2`. -/
theorem accepted_three_eighths :
    acceptSolution (1/100) (1/2)
      (⟨3/8, NpVal.finite 0, 1⟩ : FsolveResult) = true := by
  rw [acceptSolution_eq_true]
  refine ⟨?_, by norm_num, by norm_num⟩
  simp only [NpVal.sqLt, decide_eq_true_eq]
  norm_num

/-- Stage 1 under `goodFinder1` finds exactly the root `1/4`. -/
theorem good_first_eval :
    find_first_stub_solutions goodFinder1 (1/100) 500 (1/2) = [1/4] := by
  unfold find_first_stub_solutions
  rw [multiStartScan_const_of goodFinder1 ⟨1/4, NpVal.finite 0, 1⟩
    (1/100) 500 (1/2) (fun g => rfl) accepted_quarter]
  exact remove_duplicate_const (by norm_num)
    (fun x hx => List.eq_of_mem_replicate hx)
    (by intro h; rw [List.replicate_eq_nil_iff] at h; norm_num at h)

/-- Stage 2 under `goodFinder2` with first-stub list `[1/4]` finds
exactly the root `3/8`. -/
theorem good_second_eval :
    find_second_stub_solutions goodFinder2 (1/100) [1/4] 500 (1/2) =
      [3/8] := by
  unfold find_second_stub_solutions
  have hflat : ([1/4] : List ℚ).flatMap
      (fun l1 => multiStartScan (goodFinder2 l1) (1/100) 500 (1/2)) =
      multiStartScan (goodFinder2 (1/4)) (1/100) 500 (1/2) := by
    simp
  rw [hflat, multiStartScan_const_of (goodFinder2 (1/4))
    ⟨3/8, NpVal.finite 0, 1⟩ (1/100) 500 (1/2) (fun g => rfl)
    accepted_three_eighths]
  exact remove_duplicate_const (by norm_num)
    (fun x hx => List.eq_of_mem_replicate hx)
    (by intro h; rw [List.replicate_eq_nil_iff] at h; norm_num at h)

/-- Under the two good finders, `calculate` returns the single pair
`(1/4, 3/8)`. -/
theorem calculate_good_eval :
    calculate goodFinder1 goodFinder2 (1/100) = [(1/4, 3/8)] := by
  simp only [calculate]
  rw [good_first_eval, if_neg (by simp), good_second_eval,
    if_neg (by simp)]
  rfl

/-- Under the raising finder, stage 1 finds nothing. -/
theorem none_first_eval :
    find_first_stub_solutions noneFinder1 (1/100) 500 (1/2) = [] := by
  unfold find_first_stub_solutions
  rw [multiStartScan_none_of noneFinder1 (1/100) 500 (1/2) (fun g => rfl)]
  rfl

/-- A root of the stage-1 output lies strictly between `0` and the
maximum length, having passed the acceptance test. -/
theorem mem_find_first_bounds {finder : ℚ → Option FsolveResult}
    {precision : ℚ} {numTrials : ℕ} {maxLength r : ℚ}
    (h : r ∈ find_first_stub_solutions finder precision numTrials
      maxLength) : 0 < r ∧ r < maxLength := by
  unfold find_first_stub_solutions at h
  have hs := remove_duplicate_solutions_subset h
  obtain ⟨i, hi, res, hres, hacc, hroot⟩ := mem_multiStartScan.mp hs
  have hb := acceptSolution_eq_true.mp hacc
  exact ⟨hroot ▸ hb.2.1, hroot ▸ hb.2.2⟩

/-- A root of the stage-2 output lies strictly between `0` and the
maximum length, having passed the acceptance test. -/
theorem mem_find_second_bounds {finder2 : ℚ → ℚ → Option FsolveResult}
    {precision : ℚ} {firstLens : List ℚ} {numTrials : ℕ}
    {maxLength r : ℚ}
    (h : r ∈ find_second_stub_solutions finder2 precision firstLens
      numTrials maxLength) : 0 < r ∧ r < maxLength := by
  unfold find_second_stub_solutions at h
  have hs := remove_duplicate_solutions_subset h
  rw [List.mem_flatMap] at hs
  obtain ⟨l1, hl1, hmem⟩ := hs
  obtain ⟨i, hi, res, hres, hacc, hroot⟩ := mem_multiStartScan.mp hmem
  have hb := acceptSolution_eq_true.mp hacc
  exact ⟨hroot ▸ hb.2.1, hroot ▸ hb.2.2⟩

/-- Witness for C9 at tolerance `1` on the list `[3/2, 1, 2]`. -/
theorem c9_witness :
    (remove_duplicate_solutions [(3 : ℚ)/2, 1, 2] 1).Sublist
      [(3 : ℚ)/2, 1, 2] ∧
    (remove_duplicate_solutions [(3 : ℚ)/2, 1, 2] 1).Pairwise
      (fun a b => 1 ≤ |a - b|) ∧
    ([(3 : ℚ)/2, 1, 2] ≠ [] →
      (remove_duplicate_solutions [(3 : ℚ)/2, 1, 2] 1).head? =
        [(3 : ℚ)/2, 1, 2].head?) :=
  c9_theorem (1 : ℚ) [(3 : ℚ)/2, 1, 2] (by norm_num)

/-- C2: `calculate` returns the empty list, rather than failing,
whenever the multi-start scan yields zero accepted roots at stage 1 or
at stage 2; in this embedding `calculate` is a total function, so the
empty list is an ordinary return value, not an exception. -/
theorem c2_theorem (f1 : ℚ → Option FsolveResult)
    (f2 : ℚ → ℚ → Option FsolveResult) (precision : ℚ) :
    (find_first_stub_solutions f1 precision 500 (1/2) = [] →
      calculate f1 f2 precision = []) ∧
    (find_second_stub_solutions f2 precision
        (find_first_stub_solutions f1 precision 500 (1/2)) 500 (1/2) = [] →
      calculate f1 f2 precision = []) := by
  constructor
  · intro h
    simp only [calculate]
    rw [if_pos h]
  · intro h
    by_cases h1 : find_first_stub_solutions f1 precision 500 (1/2) = []
    · simp only [calculate]
      rw [if_pos h1]
    · simp only [calculate]
      rw [if_neg h1, if_pos h]

/-- Witness for C2: a finder whose every attempt raises produces no
stage-1 roots, and `calculate` returns the empty list. -/
theorem c2_witness :
    find_first_stub_solutions noneFinder1 (1/100) 500 (1/2) = [] ∧
    calculate noneFinder1 noneFinder2 (1/100) = [] :=
  ⟨none_first_eval,
    (c2_theorem noneFinder1 noneFinder2 (1/100)).1 none_first_eval⟩

/-- C3: when both stages yield at least one deduplicated root,
`calculate` returns exactly `min count1 count2` pairs, and the i-th
pair consists of the i-th stage-1 root and the i-th stage-2 root in
discovery order. -/
theorem c3_theorem (f1 : ℚ → Option FsolveResult)
    (f2 : ℚ → ℚ → Option FsolveResult) (precision : ℚ)
    (h1 : find_first_stub_solutions f1 precision 500 (1/2) ≠ [])
    (h2 : find_second_stub_solutions f2 precision
      (find_first_stub_solutions f1 precision 500 (1/2)) 500 (1/2) ≠ []) :
    (calculate f1 f2 precision).length =
      min (find_first_stub_solutions f1 precision 500 (1/2)).length
        (find_second_stub_solutions f2 precision
          (find_first_stub_solutions f1 precision 500 (1/2)) 500
          (1/2)).length ∧
    ∀ i, i < (calculate f1 f2 precision).length →
      (calculate f1 f2 precision)[i]? = some
        ((find_first_stub_solutions f1 precision 500 (1/2)).getD i 0,
         (find_second_stub_solutions f2 precision
           (find_first_stub_solutions f1 precision 500 (1/2)) 500
           (1/2)).getD i 0) := by
  have hc : calculate f1 f2 precision =
      (find_first_stub_solutions f1 precision 500 (1/2)).zip
        (find_second_stub_solutions f2 precision
          (find_first_stub_solutions f1 precision 500 (1/2)) 500 (1/2)) := by
    simp only [calculate]
    rw [if_neg h1, if_neg h2]
  constructor
  · rw [hc, List.length_zip]
  · intro i hi
    rw [hc] at hi ⊢
    exact getElem?_zip_eq 0 0 _ _ i hi

/-- Witness for C3 under the two good finders: one pair, consisting of
the unique stage-1 and stage-2 roots. -/
theorem c3_witness :
    (calculate goodFinder1 goodFinder2 (1/100)).length = 1 ∧
    (calculate goodFinder1 goodFinder2 (1/100))[0]? =
      some ((1/4 : ℚ), (3/8 : ℚ)) := by
  have h := c3_theorem goodFinder1 goodFinder2 (1/100)
    (by rw [good_first_eval]; simp)
    (by rw [good_first_eval, good_second_eval]; simp)
  constructor
  · rw [h.1, good_first_eval, good_second_eval]
    simp
  · have h0 := h.2 0 (by rw [calculate_good_eval]; simp)
    rw [good_first_eval, good_second_eval] at h0
    simpa using h0

/-- C8: every pair returned by `calculate` has both stub lengths
strictly between `0` and `1/2` wavelengths; the boundary values are
never returned. -/
theorem c8_theorem (f1 : ℚ → Option FsolveResult)
    (f2 : ℚ → ℚ → Option FsolveResult) (precision : ℚ) (p : ℚ × ℚ)
    (hp : p ∈ calculate f1 f2 precision) :
    0 < p.1 ∧ p.1 < 1/2 ∧ 0 < p.2 ∧ p.2 < 1/2 := by
  by_cases h1 : find_first_stub_solutions f1 precision 500 (1/2) = []
  · simp only [calculate] at hp
    rw [if_pos h1] at hp
    simp at hp
  by_cases h2 : find_second_stub_solutions f2 precision
      (find_first_stub_solutions f1 precision 500 (1/2)) 500 (1/2) = []
  · simp only [calculate] at hp
    rw [if_neg h1, if_pos h2] at hp
    simp at hp
  have hz : p ∈ (find_first_stub_solutions f1 precision 500 (1/2)).zip
      (find_second_stub_solutions f2 precision
        (find_first_stub_solutions f1 precision 500 (1/2)) 500 (1/2)) := by
    simp only [calculate] at hp
    rw [if_neg h1, if_neg h2] at hp
    exact hp
  obtain ⟨a, b⟩ := p
  obtain ⟨ha, hb⟩ := List.of_mem_zip hz
  obtain ⟨ha1, ha2⟩ := mem_find_first_bounds ha
  obtain ⟨hb1, hb2⟩ := mem_find_second_bounds hb
  exact ⟨ha1, ha2, hb1, hb2⟩

/-- Witness for C8 at the pair returned under the good finders. -/
theorem c8_witness :
    0 < ((1 : ℚ)/4, (3 : ℚ)/8).1 ∧ ((1 : ℚ)/4, (3 : ℚ)/8).1 < 1/2 ∧
    0 < ((1 : ℚ)/4, (3 : ℚ)/8).2 ∧ ((1 : ℚ)/4, (3 : ℚ)/8).2 < 1/2 :=
  c8_theorem goodFinder1 goodFinder2 (1/100) (1/4, 3/8)
    (by rw [calculate_good_eval]; exact List.mem_singleton_self _)

/-- The fsolve outcome used to refute C1: status flag `0` — no
convergence reported — and residual `1/20`, whose square `1/400` is
below a precision of `1/100` although `1/20` itself far exceeds
`precision² = 1/10000`. -/
def c1BadResult : FsolveResult := ⟨1/4, NpVal.finite (1/20), 0⟩

/-- A root finder oracle returning the non-converged `c1BadResult` at
every initial guess. -/
def c1BadFinder : ℚ → Option FsolveResult := fun _ => some c1BadResult

/-- The non-converged result `c1BadResult` nevertheless passes the
source acceptance test at precision `1/100`. -/
theorem c1BadResult_accepted :
    acceptSolution (1/100) (1/2) c1BadResult = true := by
  rw [acceptSolution_eq_true]
  refine ⟨?_, by norm_num [c1BadResult], by norm_num [c1BadResult]⟩
  simp only [c1BadResult, NpVal.sqLt, decide_eq_true_eq]
  norm_num

/-- Stage 1 under `c1BadFinder` accepts and returns the root `1/4`. -/
theorem c1_bad_eval :
    find_first_stub_solutions c1BadFinder (1/100) 500 (1/2) = [1/4] := by
  unfold find_first_stub_solutions
  rw [multiStartScan_const_of c1BadFinder c1BadResult (1/100) 500 (1/2)
    (fun g => rfl) c1BadResult_accepted]
  exact remove_duplicate_const (by norm_num)
    (fun x hx => List.eq_of_mem_replicate hx)
    (by intro h; rw [List.replicate_eq_nil_iff] at h; norm_num at h)

/-- Counterexample to C1: at precision `1/100`, the root `1/4` is
appended and returned by `find_first_stub_solutions` although the
finder never reports convergence (its status flag is `0`, not `1`) and
the residual `1/20` is not within `precision² = 1/10000` of zero.  The
code tests `fvec**2 < precision`, not convergence or `precision²`. -/
theorem c1_counterexample :
    (1/4 : ℚ) ∈ find_first_stub_solutions c1BadFinder (1/100) 500 (1/2) ∧
    c1BadFinder 0 = some c1BadResult ∧
    c1BadResult.ier = 0 ∧
    c1BadResult.fvec = NpVal.finite (1/20) ∧
    ((1/100 : ℚ))^2 < |(1/20 : ℚ)| := by
  refine ⟨?_, rfl, rfl, rfl, ?_⟩
  · rw [c1_bad_eval]
    exact List.mem_singleton_self _
  · rw [abs_of_pos (by norm_num : (0 : ℚ) < 1/20)]
    norm_num

/-- C1 as amended: a candidate root is appended (and can appear in the
returned list) only if the finder call at one of the scanned initial
guesses returned it with `fvec² < precision` — false for a non-finite
residual — and the root lies strictly inside `(0, max_length)`; the
convergence status flag is never consulted, so two finders differing
only in their status flags produce identical stage-1 output.  The same
acceptance test governs `find_second_stub_solutions`. -/
theorem c1_theorem (finder : ℚ → Option FsolveResult)
    (finder2 : ℚ → ℚ → Option FsolveResult) (precision : ℚ)
    (numTrials : ℕ) (maxLength : ℚ) (firstLens : List ℚ) :
    (∀ r ∈ find_first_stub_solutions finder precision numTrials maxLength,
      0 < r ∧ r < maxLength ∧
      ∃ i ∈ List.range' 1 (numTrials - 1), ∃ res : FsolveResult,
        finder (maxLength / (numTrials : ℚ) * (i : ℚ)) = some res ∧
        res.root = r ∧ NpVal.sqLt res.fvec precision = true) ∧
    (∀ r ∈ find_second_stub_solutions finder2 precision firstLens
        numTrials maxLength,
      0 < r ∧ r < maxLength ∧
      ∃ l1 ∈ firstLens, ∃ i ∈ List.range' 1 (numTrials - 1),
        ∃ res : FsolveResult,
          finder2 l1 (maxLength / (numTrials : ℚ) * (i : ℚ)) = some res ∧
          res.root = r ∧ NpVal.sqLt res.fvec precision = true) ∧
    (∀ finderB : ℚ → Option FsolveResult,
      (∀ g, (finder g).map (fun res => (res.root, res.fvec)) =
        (finderB g).map (fun res => (res.root, res.fvec))) →
      find_first_stub_solutions finder precision numTrials maxLength =
        find_first_stub_solutions finderB precision numTrials maxLength) := by
  refine ⟨?_, ?_, ?_⟩
  · intro r hr
    unfold find_first_stub_solutions at hr
    have hs := remove_duplicate_solutions_subset hr
    obtain ⟨i, hi, res, hres, hacc, hroot⟩ := mem_multiStartScan.mp hs
    obtain ⟨hsq, h0, hm⟩ := acceptSolution_eq_true.mp hacc
    exact ⟨hroot ▸ h0, hroot ▸ hm, i, hi, res, hres, hroot, hsq⟩
  · intro r hr
    unfold find_second_stub_solutions at hr
    have hs := remove_duplicate_solutions_subset hr
    rw [List.mem_flatMap] at hs
    obtain ⟨l1, hl1, hmem⟩ := hs
    obtain ⟨i, hi, res, hres, hacc, hroot⟩ := mem_multiStartScan.mp hmem
    obtain ⟨hsq, h0, hm⟩ := acceptSolution_eq_true.mp hacc
    exact ⟨hroot ▸ h0, hroot ▸ hm, l1, hl1, i, hi, res, hres, hroot, hsq⟩
  · intro finderB hB
    have hAtt : ∀ g, scanAttempt finder precision maxLength g =
        scanAttempt finderB precision maxLength g := by
      intro g
      have h := hB g
      unfold scanAttempt
      cases hA : finder g with
      | none =>
        cases hBg : finderB g with
        | none => rfl
        | some rb =>
          rw [hA, hBg] at h
          rw [Option.map_none', Option.map_some'] at h
          exact absurd h (by simp)
      | some ra =>
        cases hBg : finderB g with
        | none =>
          rw [hA, hBg] at h
          rw [Option.map_none', Option.map_some'] at h
          exact absurd h (by simp)
        | some rb =>
          rw [hA, hBg] at h
          rw [Option.map_some', Option.map_some'] at h
          have h := Option.some.inj h
          have hroot : ra.root = rb.root := congrArg Prod.fst h
          have hfvec : ra.fvec = rb.fvec := congrArg Prod.snd h
          have haeq : acceptSolution precision maxLength ra =
              acceptSolution precision maxLength rb := by
            unfold acceptSolution
            rw [hroot, hfvec]
          show (if acceptSolution precision maxLength ra = true
              then some ra.root else none) =
            (if acceptSolution precision maxLength rb = true
              then some rb.root else none)
          rw [haeq, hroot]
    unfold find_first_stub_solutions multiStartScan
    rw [show (fun (i : ℕ) => scanAttempt finder precision maxLength
        (maxLength / (numTrials : ℚ) * (i : ℚ))) =
      (fun (i : ℕ) => scanAttempt finderB precision maxLength
        (maxLength / (numTrials : ℚ) * (i : ℚ))) from
      funext (fun i => hAtt _)]

/-- Witness for C1 as amended, instantiated at the good stage-1 finder:
the returned root `1/4` is strictly inside the interval and came from
an accepted finder call. -/
theorem c1_witness :
    0 < (1/4 : ℚ) ∧ (1/4 : ℚ) < 1/2 ∧
    ∃ i ∈ List.range' 1 (500 - 1), ∃ res : FsolveResult,
      goodFinder1 ((1/2 : ℚ) / (500 : ℕ) * (i : ℚ)) = some res ∧
      res.root = 1/4 ∧ NpVal.sqLt res.fvec (1/100) = true :=
  (c1_theorem goodFinder1 goodFinder2 (1/100) 500 (1/2) []).1 (1/4)
    (by rw [good_first_eval]; exact List.mem_singleton_self _)

/-- A stage-2 root finder oracle that converges to `1/4` with zero
residual for every first-stub length and guess, so that distinct
first-stub roots produce identical stage-2 roots. -/
def c4Finder2 : ℚ → ℚ → Option FsolveResult :=
  fun _ _ => some ⟨1/4, NpVal.finite 0, 1⟩

/-- Pooled stage-2 collection under `c4Finder2` for the two first-stub
roots `1/10` and `2/10`: the duplicate filter runs once on the pooled
list, so the shared root survives once. -/
theorem c4_pooled_eval :
    find_second_stub_solutions c4Finder2 (1/100) [1/10, 2/10] 500 (1/2) =
      [1/4] := by
  unfold find_second_stub_solutions
  have hscan : ∀ l1 : ℚ,
      multiStartScan (c4Finder2 l1) (1/100) 500 (1/2) =
        List.replicate (500 - 1) (1/4 : ℚ) := fun l1 =>
    multiStartScan_const_of (c4Finder2 l1) ⟨1/4, NpVal.finite 0, 1⟩
      (1/100) 500 (1/2) (fun g => rfl) accepted_quarter
  have hflat : ([1/10, 2/10] : List ℚ).flatMap
      (fun l1 => multiStartScan (c4Finder2 l1) (1/100) 500 (1/2)) =
      List.replicate (500 - 1) (1/4 : ℚ) ++
        List.replicate (500 - 1) (1/4 : ℚ) := by
    rw [List.flatMap_cons, hscan, List.flatMap_cons, hscan,
      List.flatMap_nil, List.append_nil]
  rw [hflat]
  refine remove_duplicate_const (by norm_num) ?_ ?_
  case refine_2 =>
    intro h
    rw [List.append_eq_nil, List.replicate_eq_nil_iff] at h
    have := h.1
    norm_num at this
  intro x hx
  rcases List.mem_append.mp hx with h | h
  · exact List.eq_of_mem_replicate h
  · exact List.eq_of_mem_replicate h

/-- Per-first-stub-root stage-2 collection, as the specification
describes it, under the same inputs: each root set deduplicates
separately, so the shared root survives once per first-stub root. -/
theorem c4_perRoot_eval :
    find_second_stub_solutions_spec_perRoot c4Finder2 (1/100)
      [1/10, 2/10] 500 (1/2) = [1/4, 1/4] := by
  unfold find_second_stub_solutions_spec_perRoot
  have hone : ∀ l1 : ℚ,
      remove_duplicate_solutions
        (multiStartScan (c4Finder2 l1) (1/100) 500 (1/2)) (1/100) =
      [1/4] := by
    intro l1
    rw [multiStartScan_const_of (c4Finder2 l1) ⟨1/4, NpVal.finite 0, 1⟩
      (1/100) 500 (1/2) (fun g => rfl) accepted_quarter]
    exact remove_duplicate_const (by norm_num)
      (fun x hx => List.eq_of_mem_replicate hx)
      (by intro h; rw [List.replicate_eq_nil_iff] at h; norm_num at h)
  rw [List.flatMap_cons, hone, List.flatMap_cons, hone,
    List.flatMap_nil, List.append_nil]
  rfl

/-- Counterexample to C4: when two first-stub roots lead the stage-2
solver to the same root, the source pools all stage-2 roots and
deduplicates once globally, returning the shared root once; the
per-first-stub-root deduplication described by the claim would return
it twice. -/
theorem c4_counterexample :
    find_second_stub_solutions c4Finder2 (1/100) [1/10, 2/10] 500 (1/2) =
      [1/4] ∧
    find_second_stub_solutions_spec_perRoot c4Finder2 (1/100)
      [1/10, 2/10] 500 (1/2) = [1/4, 1/4] ∧
    find_second_stub_solutions c4Finder2 (1/100) [1/10, 2/10] 500 (1/2) ≠
      find_second_stub_solutions_spec_perRoot c4Finder2 (1/100)
        [1/10, 2/10] 500 (1/2) := by
  refine ⟨c4_pooled_eval, c4_perRoot_eval, ?_⟩
  rw [c4_pooled_eval, c4_perRoot_eval]
  simp

/-- C4 as amended: stage-2 solving reruns the multi-start solver once
per given first-stub root with that root fixed, but pools the accepted
roots of all first-stub roots into one list and deduplicates once
globally — every returned root originates from some first-stub root's
scan, and the whole returned list (not each per-root set separately)
is pairwise separated by at least the precision. -/
theorem c4_theorem (finder2 : ℚ → ℚ → Option FsolveResult)
    (precision : ℚ) (firstLens : List ℚ) (numTrials : ℕ)
    (maxLength : ℚ) :
    (∀ r ∈ find_second_stub_solutions finder2 precision firstLens
        numTrials maxLength,
      ∃ l1 ∈ firstLens,
        r ∈ multiStartScan (finder2 l1) precision numTrials maxLength) ∧
    (find_second_stub_solutions finder2 precision firstLens numTrials
        maxLength).Pairwise (fun a b => precision ≤ |a - b|) := by
  constructor
  · intro r hr
    unfold find_second_stub_solutions at hr
    have hs := remove_duplicate_solutions_subset hr
    rw [List.mem_flatMap] at hs
    exact hs
  · unfold find_second_stub_solutions
    exact remove_duplicate_solutions_pairwise _ _

/-- Witness for C4 as amended at the shared-root scenario: the
returned root `1/4` originates from one of the first-stub roots, and
the returned list is pairwise separated. -/
theorem c4_witness :
    (∃ l1 ∈ ([1/10, 2/10] : List ℚ),
      (1/4 : ℚ) ∈ multiStartScan (c4Finder2 l1) (1/100) 500 (1/2)) ∧
    (find_second_stub_solutions c4Finder2 (1/100) [1/10, 2/10] 500
      (1/2)).Pairwise (fun a b => (1/100 : ℚ) ≤ |a - b|) :=
  ⟨(c4_theorem c4Finder2 (1/100) [1/10, 2/10] 500 (1/2)).1 (1/4)
      (by rw [c4_pooled_eval]; exact List.mem_singleton_self _),
    (c4_theorem c4Finder2 (1/100) [1/10, 2/10] 500 (1/2)).2⟩

/-- The default test load impedance `38.9 - 26.7j` is nonzero. -/
theorem demo_load_ne_zero : (⟨38.9, -26.7⟩ : ℂ) ≠ 0 := by
  intro h
  have hre := congrArg Complex.re h
  simp only [Complex.zero_re] at hre
  norm_num at hre

/-- Counterexample to C6: constructing with the negative, hence
non-positive, line impedance `-50` raises no error at all — the
constructor validates only the stub type and the reciprocals only fail
on exact zeros. -/
theorem c6_counterexample :
    DoubleStubMatcher.init (7/100) (3/8) (⟨38.9, -26.7⟩ : ℂ)
      (-50) 50 "short" (1/100000000) =
    Except.ok ⟨7/100, 3/8, (⟨38.9, -26.7⟩ : ℂ), -50, 50,
      strLower "short", 1/100000000, 1/(-50), 1/50,
      1/(⟨38.9, -26.7⟩ : ℂ)⟩ := by
  unfold DoubleStubMatcher.init
  rw [if_neg (show ¬((-50 : ℝ) = 0) by norm_num),
    if_neg (show ¬((50 : ℝ) = 0) by norm_num),
    if_neg demo_load_ne_zero,
    if_pos (Or.inl (show strLower "short" = "short" by decide))]

/-- C6 as amended: construction fails with the descriptive stub-type
ValueError only for an invalid (lower-cased) stub kind; an exactly-zero
line, stub, or load impedance fails with a ZeroDivisionError from the
reciprocal computations (not a descriptive configuration error);
negative impedances are not rejected; construction with a valid stub
kind and nonzero impedances raises no error. -/
theorem c6_theorem (dl dd : ℝ) (zl : ℂ) (z0 z0s : ℝ) (st : String)
    (prec : ℝ) :
    ((z0 = 0 ∨ z0s = 0 ∨ zl = 0) →
      DoubleStubMatcher.init dl dd zl z0 z0s st prec =
        Except.error InitError.zeroDivisionError) ∧
    (z0 ≠ 0 → z0s ≠ 0 → zl ≠ 0 →
      ¬(strLower st = "short" ∨ strLower st = "open") →
      DoubleStubMatcher.init dl dd zl z0 z0s st prec =
        Except.error InitError.valueErrorStubType) ∧
    (z0 ≠ 0 → z0s ≠ 0 → zl ≠ 0 →
      (strLower st = "short" ∨ strLower st = "open") →
      DoubleStubMatcher.init dl dd zl z0 z0s st prec =
        Except.ok ⟨dl, dd, zl, z0, z0s, strLower st, prec,
          1/z0, 1/z0s, 1/zl⟩) := by
  refine ⟨?_, ?_, ?_⟩ <;> unfold DoubleStubMatcher.init
  · intro h
    split_ifs with h1 h2 h3 h4 <;> first | rfl | tauto
  · intro h1 h2 h3 h4
    split_ifs with g1 g2 g3 g4 <;> first | rfl | tauto
  · intro h1 h2 h3 h4
    split_ifs with g1 g2 g3 g4 <;> first | rfl | tauto

/-- Witness for C6 as amended: the default valid configuration
constructs without error. -/
theorem c6_witness :
    DoubleStubMatcher.init (7/100) (3/8) (⟨38.9, -26.7⟩ : ℂ)
      50 50 "short" (1/100000000) =
    Except.ok ⟨7/100, 3/8, (⟨38.9, -26.7⟩ : ℂ), 50, 50,
      strLower "short", 1/100000000, 1/50, 1/50,
      1/(⟨38.9, -26.7⟩ : ℂ)⟩ :=
  (c6_theorem (7/100) (3/8) (⟨38.9, -26.7⟩ : ℂ) 50 50 "short"
      (1/100000000)).2.2
    (by norm_num) (by norm_num) demo_load_ne_zero
    (Or.inl (by decide))

/-- A concrete matcher instance with the default configuration:
`Z0 = Z0_stub = 50`, shorted stubs, load `38.9 - 26.7j`. -/
noncomputable def demoMatcher : DoubleStubMatcher :=
  ⟨7/100, 3/8, ⟨38.9, -26.7⟩, 50, 50, "short", 1/100000000,
    1/50, 1/50, 1/(⟨38.9, -26.7⟩ : ℂ)⟩

/-- C10: the transmission-line transform at zero distance is the
identity: the electrical length is zero, the denominator is one, and
`Y0 * (y / Y0)` collapses to `y` whenever `Y0` is nonzero. -/
theorem c10_theorem (m : DoubleStubMatcher) (y : ℂ) (h : m.Y0 ≠ 0) :
    m.transform_admittance y 0 = NpVal.finite y := by
  have hY : (m.Y0 : ℂ) ≠ 0 := Complex.ofReal_ne_zero.mpr h
  simp only [DoubleStubMatcher.transform_admittance, mul_zero,
    Real.cos_zero, Real.sin_zero, Complex.ofReal_one, Complex.ofReal_zero,
    mul_one, add_zero, zero_mul, div_one]
  rw [if_neg one_ne_zero]
  congr 1
  field_simp

/-- Witness for C10 at the concrete matcher and admittance `2 - 3j`. -/
theorem c10_witness :
    demoMatcher.Y0 ≠ 0 ∧
    demoMatcher.transform_admittance (⟨2, -3⟩ : ℂ) 0 =
      NpVal.finite (⟨2, -3⟩ : ℂ) :=
  ⟨by norm_num [demoMatcher],
    c10_theorem demoMatcher (⟨2, -3⟩ : ℂ) (by norm_num [demoMatcher])⟩

/-- Counterexample to C7: at the singular points the evaluation does
not raise or propagate any error — it returns a silent non-finite
value.  `cot 0` divides by `sin 0 = 0`, and the transform of the zero
admittance over a quarter wavelength has denominator
`cos(pi/2) = 0`. -/
theorem c7_counterexample :
    cot 0 = NpVal.nonfinite ∧
    demoMatcher.transform_admittance 0 (1/4) = NpVal.nonfinite := by
  constructor
  · unfold cot
    rw [if_pos Real.sin_zero]
  · have hden : ((Real.cos (2 * Real.pi * (1/4)) : ℝ) : ℂ) +
        Complex.I * ((Real.sin (2 * Real.pi * (1/4)) : ℝ) : ℂ) *
          ((0 : ℂ) / ((demoMatcher.Y0 : ℝ) : ℂ)) = 0 := by
      rw [show 2 * Real.pi * (1/4 : ℝ) = Real.pi/2 by ring,
        Real.cos_pi_div_two]
      simp
    simp only [DoubleStubMatcher.transform_admittance]
    rw [if_pos hden]

/-- C7 as amended: a vanishing sine in `cot` or a vanishing transform
denominator yields the non-finite value (no dedicated error exists in
the code); inside the multi-start scan an attempt whose residual is
non-finite always fails the acceptance comparison, so it is discarded
exactly like a non-converged attempt and never escalates. -/
theorem c7_theorem :
    (∀ x : ℝ, Real.sin x = 0 → cot x = NpVal.nonfinite) ∧
    (∀ (m : DoubleStubMatcher) (y : ℂ) (d : ℝ),
      ((Real.cos (2 * Real.pi * d) : ℝ) : ℂ) +
        Complex.I * ((Real.sin (2 * Real.pi * d) : ℝ) : ℂ) *
          (y / ((m.Y0 : ℝ) : ℂ)) = 0 →
      m.transform_admittance y d = NpVal.nonfinite) ∧
    (∀ (finder : ℚ → Option FsolveResult) (precision : ℚ)
        (numTrials : ℕ) (maxLength : ℚ),
      (∀ g res, finder g = some res → res.fvec = NpVal.nonfinite) →
      multiStartScan finder precision numTrials maxLength = []) := by
  refine ⟨?_, ?_, ?_⟩
  · intro x hx
    unfold cot
    rw [if_pos hx]
  · intro m y d hden
    simp only [DoubleStubMatcher.transform_admittance]
    rw [if_pos hden]
  · intro finder precision numTrials maxLength hf
    unfold multiStartScan
    refine filterMap_eq_nil_of_none (fun i => ?_) _
    unfold scanAttempt
    cases hres : finder (maxLength / (numTrials : ℚ) * (i : ℚ)) with
    | none => rfl
    | some res =>
      have hfv := hf _ _ hres
      have hacc : acceptSolution precision maxLength res = false := by
        unfold acceptSolution
        rw [hfv]
        rfl
      show (if acceptSolution precision maxLength res = true
          then some res.root else none) = none
      rw [hacc]
      simp

/-- Witness for C7 as amended: `cot` at the singular point `pi`, and a
scan whose finder always reports a non-finite residual, which collects
nothing. -/
theorem c7_witness :
    cot Real.pi = NpVal.nonfinite ∧
    multiStartScan (fun _ => some ⟨1/4, NpVal.nonfinite, 1⟩) (1/100)
      500 (1/2) = [] :=
  ⟨c7_theorem.1 Real.pi Real.sin_pi,
    c7_theorem.2.2 _ (1/100) 500 (1/2)
      (fun g res hres => by cases Option.some.inj hres; rfl)⟩
